import Mathlib

/-!
Verification of the template-engine, message post-processor, diff summarizer,
argument parser and main control flow of the `commit-assist` CLI
(`src/commit-assist.js`, later variant unless noted).  Strings are modelled as
Lean `String`s (lists of characters); each JavaScript helper is embedded as a
computable Lean function with the same name where possible.
-/

namespace CommitAssist

/-- JS regex `\w`: ASCII letter, ASCII digit or underscore. -/
def isWordChar (c : Char) : Bool :=
  c.isAlpha || c.isDigit || c = '_'

/-- JS regex `\s` on the character set that occurs in this program's data
(space, tab, newline, carriage return, vertical tab, form feed, NBSP). -/
def isJsSpace (c : Char) : Bool :=
  c = ' ' || c = '\t' || c = '\n' || c = '\r' ||
  c = '\x0b' || c = '\x0c' || c = ' '

/-- The quote characters stripped by `replace(/^["'\x7b..] .. /)` in the source:
double quote, single quote, backtick. -/
def isQuoteChar (c : Char) : Bool :=
  c = '"' || c = '\'' || c = '\x60'

/-- `A`–`Z`, as in the ticket-reference regex `[A-Z]+`. -/
def isUpperAZ (c : Char) : Bool :=
  'A' ≤ c && c ≤ 'Z'

/-- JS `String.prototype.includes`: `needle` occurs as a contiguous substring
of `haystack`. -/
def containsSub (haystack needle : List Char) : Bool :=
  match haystack with
  | [] => needle.isEmpty
  | _ :: t => needle.isPrefixOf haystack || containsSub t needle

/-- JS `String.prototype.trim` (drop leading and trailing whitespace). -/
def jsTrimL (l : List Char) : List Char :=
  ((l.dropWhile isJsSpace).reverse.dropWhile isJsSpace).reverse

/-- String-level wrapper for `jsTrimL`. -/
def jsTrim (s : String) : String := ⟨jsTrimL s.data⟩

/-- JS `toLowerCase` on the ASCII range (the only range this program feeds it). -/
def lowerStr (s : String) : String := ⟨s.data.map Char.toLower⟩

/-- `split("\n")[0]`: everything before the first newline. -/
def firstLine (l : List Char) : List Char :=
  l.takeWhile (fun c => !(c = '\n'))

/-- Length of `dropWhile` never exceeds the input length. -/
theorem length_dropWhile_le (p : Char → Bool) (l : List Char) :
    (l.dropWhile p).length ≤ l.length := by
  induction l with
  | nil => simp [List.dropWhile]
  | cons c rest ih =>
    by_cases h : p c
    · simp [List.dropWhile, h]; omega
    · simp [List.dropWhile, h]

mutual

/-- `replace(/\s+/g, " ")`: collapse every maximal run of whitespace to a
single space; this function scans outside a whitespace run. -/
def collapseWs : List Char → List Char
  | [] => []
  | c :: rest =>
    if isJsSpace c then ' ' :: skipWs rest
    else c :: collapseWs rest

/-- Companion of `collapseWs`: consume the remainder of a whitespace run whose
single replacement space has been emitted. -/
def skipWs : List Char → List Char
  | [] => []
  | c :: rest =>
    if isJsSpace c then skipWs rest
    else c :: collapseWs rest

end

/-- `replace(/^["'\x60]+|["'\x60]+$/g, "")`: strip one leading and one trailing
run of quote characters. -/
def stripEdgeQuotes (l : List Char) : List Char :=
  ((l.dropWhile isQuoteChar).reverse.dropWhile isQuoteChar).reverse

/-! ## Template engine (`fillTemplate`, later variant lines 633–637) -/

/-- JS `key in values` / `values[key]` over the substitution object, modelled
as an association list (object keys are unique; first binding wins). -/
def lookupValue (values : List (String × String)) (k : String) : Option String :=
  (values.find? (fun p => p.1 == k)).map Prod.snd

/-- Does the list start with a closing brace? -/
def isRBraceHead (l : List Char) : Bool :=
  match l with
  | c :: _ => c = '}'
  | [] => false

/-- A list's tail is never longer than the list. -/
theorem length_tail_le (l : List Char) : l.tail.length ≤ l.length := by
  cases l <;> simp

/-- Bound used for the termination of the template scanners. -/
theorem length_tail_dropWhile_le (p : Char → Bool) (l : List Char) :
    ((l.dropWhile p).tail).length ≤ l.length :=
  le_trans (length_tail_le _) (length_dropWhile_le _ _)

/-- `template.replace(/\{(\w+)\}/g, (match, key) => key in values ?
values[key] : match)`: left-to-right scan; at each `{` try to read one or more
word characters followed by `}`; replace when the key has a binding, keep the
literal match otherwise; on failure to match, emit the `{` and resume at the
next character. -/
def fillAux (values : List (String × String)) (l : List Char) : List Char :=
  match l with
  | [] => []
  | c :: rest =>
    if c = '{' then
      let run := rest.takeWhile isWordChar
      let dropped := rest.dropWhile isWordChar
      if !run.isEmpty && isRBraceHead dropped then
        match lookupValue values ⟨run⟩ with
        | some v => v.data ++ fillAux values dropped.tail
        | none => '{' :: (run ++ '}' :: fillAux values dropped.tail)
      else '{' :: fillAux values rest
    else c :: fillAux values rest
termination_by l.length
decreasing_by
  all_goals simp_wf
  all_goals first
    | omega
    | exact Nat.lt_succ_of_le (le_trans (Nat.sub_le _ _) (length_dropWhile_le _ _))

/-- The keys of the brace tokens that the regex `\{(\w+)\}` recognizes in a
template, in match order (independent of the substitution map). -/
def templateKeys (l : List Char) : List String :=
  match l with
  | [] => []
  | c :: rest =>
    if c = '{' then
      let run := rest.takeWhile isWordChar
      let dropped := rest.dropWhile isWordChar
      if !run.isEmpty && isRBraceHead dropped then
        (⟨run⟩ : String) :: templateKeys dropped.tail
      else templateKeys rest
    else templateKeys rest
termination_by l.length
decreasing_by
  all_goals simp_wf
  all_goals first
    | omega
    | exact Nat.lt_succ_of_le (le_trans (Nat.sub_le _ _) (length_dropWhile_le _ _))

/-- `fillTemplate(template, values)` from the source. -/
def fillTemplate (template : String) (values : List (String × String)) : String :=
  ⟨fillAux values template.data⟩

/-! ## Template validation (`validatePromptTemplate`, later variant
lines 484–511) -/

/-- The seven placeholder names required by the later-variant validator. -/
def requiredPlaceholders : List String :=
  ["{gitStagedChanges}", "{gitDiff}", "{userContext}", "{recentCommits}",
   "{branchName}", "{gitDiffSummary}", "{conventionalText}"]

/-- `requiredPlaceholders.filter((p) => !template.includes(p))`. -/
def missingPlaceholders (template : String) : List String :=
  requiredPlaceholders.filter (fun p => !(containsSub template.data p.data))

/-- Outcome of `validatePromptTemplate`: `ok` (returns `true`) or a fatal
error listing the missing names (`console.error` + `process.exit(1)`). -/
inductive ValidateResult where
  | ok : ValidateResult
  | missingErr (names : List String) : ValidateResult
  deriving DecidableEq

/-- `validatePromptTemplate(template)` from the source. -/
def validatePromptTemplate (template : String) : ValidateResult :=
  if missingPlaceholders template ≠ [] then
    .missingErr (missingPlaceholders template)
  else .ok

/-! ## Ticket suffix (`formatCommitMessage`, later variant lines 538–547) -/

/-- One step of `message.replace(/\s*\([A-Z]+-\d+\)\s*$/, "")`, working on the
reversed character list: strip trailing whitespace, then `)`, a non-empty
digit run, `-`, a non-empty uppercase run, `(`, and the whitespace before it.
Returns the reversed remainder on a match. -/
def stripTicketAux (r : List Char) : Option (List Char) :=
  match r.dropWhile isJsSpace with
  | c1 :: r2 =>
    if c1 = ')' then
      if (r2.takeWhile Char.isDigit).isEmpty then none
      else
        match r2.dropWhile Char.isDigit with
        | c3 :: r4 =>
          if c3 = '-' then
            if (r4.takeWhile isUpperAZ).isEmpty then none
            else
              match r4.dropWhile isUpperAZ with
              | c5 :: r6 =>
                if c5 = '(' then some (r6.dropWhile isJsSpace) else none
              | [] => none
          else none
        | [] => none
    else none
  | [] => none

/-- `message.replace(/\s*\([A-Z]+-\d+\)\s*$/, "")`: remove a pre-existing
trailing ticket reference, if any. -/
def stripTicketRef (message : String) : String :=
  match stripTicketAux message.data.reverse with
  | some r => ⟨r.reverse⟩
  | none => message

/-- `formatCommitMessage(message, ticketID)` from the source (an absent or
empty `ticketID` is JS-falsy and leaves the message unchanged). -/
def formatCommitMessage (message ticketID : String) : String :=
  if ticketID = "" then message
  else stripTicketRef message ++ " (" ++ ticketID ++ ")"

/-! ## Conventional type rewrite (`applyCustomConventionalType`,
later variant lines 514–535) -/

/-- The optional-group part `(\([^)]*\))?` of the conventional-prefix regex:
on `(`, consume up to and including the first `)` (failing without one, since
backtracking past an opening parenthesis cannot reach the following `\s*:`);
otherwise consume nothing. -/
def convScopeRem (r1 : List Char) : Option (List Char) :=
  match r1 with
  | c :: rest =>
    if c = '(' then
      match rest.dropWhile (fun x => !(x = ')')) with
      | d :: rest2 => if d = ')' then some rest2 else none
      | [] => none
    else some (c :: rest)
  | [] => some []

/-- Matcher for `/^[a-z]+(\([^)]*\))?\s*:\s*/i` continued: after the letters
and the optional scope handled by `convScopeRem`, optional whitespace, a
colon, optional whitespace. -/
def convMatchRem (l : List Char) : Option (List Char) :=
  if (l.takeWhile Char.isAlpha).isEmpty then none
  else
    match convScopeRem (l.dropWhile Char.isAlpha) with
    | none => none
    | some r3 =>
      match r3.dropWhile isJsSpace with
      | c :: r5 => if c = ':' then some (r5.dropWhile isJsSpace) else none
      | [] => none

/-- `applyCustomConventionalType(message, customType)` from the source. -/
def applyCustomConventionalType (message customType : String) : String :=
  if customType = "" then message
  else if jsTrim customType = "" then message
  else
    match convMatchRem message.data with
    | some rem => customType ++ ": " ++ (⟨rem⟩ : String)
    | none => customType ++ ": " ++ message

/-! ## Diff summarizer (`summarizeDiff`, later variant lines 475–481) -/

/-- Split a character list at every newline (JS multiline `^`/`$` boundaries:
each segment is one line). -/
def splitLines (l : List Char) : List (List Char) :=
  match l with
  | [] => [[]]
  | c :: rest =>
    if c = '\n' then [] :: splitLines rest
    else
      match splitLines rest with
      | [] => [[c]]
      | line :: ls => (c :: line) :: ls

/-- Lazy capture of `a\/(.+?) b\/.+$`: the shortest non-empty prefix of the
line tail that is followed by `" b/"` and at least one further character. -/
def captureScan (acc : List Char) : List Char → Option (List Char)
  | [] => none
  | c :: rest =>
    if " b/".data.isPrefixOf rest && !(rest.drop 3).isEmpty then some (acc ++ [c])
    else captureScan (acc ++ [c]) rest

/-- One line matched against `/^diff --git a\/(.+?) b\/.+$/`; returns the
captured pre-image path. -/
def diffHeaderPath (line : List Char) : Option (List Char) :=
  if "diff --git a/".data.isPrefixOf line then captureScan [] (line.drop 13)
  else none

/-- All pre-image paths of diff header lines, in first-seen order. -/
def extractPathsL (l : List Char) : List (List Char) :=
  (splitLines l).filterMap diffHeaderPath

/-- `summarizeDiff(gitDiff)` from the source. -/
def summarizeDiff (gitDiff : String) : String :=
  let files := (extractPathsL gitDiff.data).map (fun p => (⟨p⟩ : String))
  if files.isEmpty then "No files changed"
  else "Files changed: " ++ String.intercalate ", " files

/-! ## Model-output cleanup and quality gate (`generateCommitMessage`,
later variant lines 752–769) -/

/-- `fullResponse.trim().split("\n")[0].replace(/^['"\x60]+|['"\x60]+$/g, "")
.replace(/\s+/g, " ")`: the `aiMessage` computed from the raw model text. -/
def aiCleanMessage (fullResponse : String) : String :=
  ⟨collapseWs (stripEdgeQuotes (firstLine (jsTrimL fullResponse.data)))⟩

/-- The quality-gate condition: `!aiMessage ||
aiMessage.toLowerCase().includes("commit message") || aiMessage.length < 5`. -/
def warnGate (aiMessage : String) : Bool :=
  aiMessage = "" ||
  containsSub (lowerStr aiMessage).data "commit message".data ||
  aiMessage.length < 5

/-- The tail of `generateCommitMessage`: the cleaned message together with
whether the non-fatal warning is emitted; the message is returned in either
case. -/
def processedResult (fullResponse : String) : String × Bool :=
  let aiMessage := aiCleanMessage fullResponse
  (aiMessage, warnGate aiMessage)

/-! ## Argument parser (`parseArgs`, later variant lines 386–417) -/

/-- The options record built by `parseArgs` (fields absent from the JS object
are `none`). -/
structure CliArgs where
  context : Option String := none
  useAiConventional : Option Bool := none
  conventionalType : Option String := none
  ticketID : Option String := none
  autoCopy : Option Bool := none
  model : Option String := none
  promptTemplate : Option String := none
  debug : Option Bool := none
  deriving DecidableEq

/-- Outcome of the parse: `--help`/`-h` prints usage and exits 0 immediately;
otherwise the loop runs to the end of the argument list. -/
inductive ParseOut where
  | helpExit : ParseOut
  | finished (args : CliArgs) : ParseOut
  deriving DecidableEq

/-- The single-pass scan of `parseArgs`: every two-token flag stores
`args[i + 1] || ""` (the following token, or the empty string when the list
ends) and skips it; boolean flags set their field; unknown tokens are
ignored.  When a two-token flag is the last token, the JS loop stores the
empty string and the next iteration ends the scan, so the parse finishes
immediately with the updated record. -/
def parseLoop (argv : List String) (acc : CliArgs) : ParseOut :=
  match argv with
  | [] => .finished acc
  | a :: rest =>
    if a = "--help" || a = "-h" then .helpExit
    else if a = "--context" || a = "-ctx" then
      match rest with
      | [] => .finished { acc with context := some "" }
      | v :: rest2 => parseLoop rest2 { acc with context := some v }
    else if a = "--conventional-format" || a = "-cf" then
      parseLoop rest { acc with useAiConventional := some true }
    else if a = "--type" || a = "-t" then
      match rest with
      | [] => .finished { acc with conventionalType := some "" }
      | v :: rest2 => parseLoop rest2 { acc with conventionalType := some v }
    else if a = "--ticketid" || a = "-tid" then
      match rest with
      | [] => .finished { acc with ticketID := some "" }
      | v :: rest2 => parseLoop rest2 { acc with ticketID := some v }
    else if a = "--copy" || a = "-c" then
      parseLoop rest { acc with autoCopy := some true }
    else if a = "--model" || a = "-m" then
      match rest with
      | [] => .finished { acc with model := some "" }
      | v :: rest2 => parseLoop rest2 { acc with model := some v }
    else if a = "--prompt-template" || a = "-pt" then
      match rest with
      | [] => .finished { acc with promptTemplate := some "" }
      | v :: rest2 => parseLoop rest2 { acc with promptTemplate := some v }
    else if a = "--debug" then
      parseLoop rest { acc with debug := some true }
    else parseLoop rest acc


/-- `parseArgs()` applied to `process.argv.slice(2)`. -/
def parseArgs (argv : List String) : ParseOut :=
  parseLoop argv {}

/-! ## Message pipeline of `main` (`cleanAndFormatMessage`, later variant
lines 779–805) -/

/-- `cleanAndFormatMessage(message, args)`: strip wrapping quotes, trim,
collapse whitespace, then optionally re-type (when `conventionalType` was
supplied, even as the empty string) and append the ticket id (when `ticketID`
was supplied and is truthy). -/
def cleanAndFormatMessage (message : String) (args : CliArgs) : String :=
  let clean1 : String := ⟨collapseWs (jsTrimL (stripEdgeQuotes message.data))⟩
  let clean2 : String :=
    match args.conventionalType with
    | some t => applyCustomConventionalType clean1 t
    | none => clean1
  match args.ticketID with
  | some t => if t = "" then clean2 else formatCommitMessage clean2 t
  | none => clean2

/-! ## Git context gatherer (`getGitData`, later variant lines 550–603) -/

/-- The value object produced by the later-variant `getGitData`. -/
structure GitData where
  gitStagedChanges : String
  gitDiff : String
  hasStaged : Bool
  deriving DecidableEq

/-- Later-variant `getGitData`, as a function of the outputs of
`git diff --cached --name-status` and `git diff --cached`: with no staged
changes it returns `hasStaged: false` (it does not exit). -/
def getGitData (statusOut diffOut : String) : GitData :=
  if jsTrim statusOut = "" then ⟨"", "", false⟩
  else ⟨jsTrim statusOut, jsTrim diffOut, true⟩

/-- Earlier-variant `getGitData` (concatenated-file lines 151–177): with no
staged changes it prints a notice and calls `process.exit(0)` before any
provider call; the exit is modelled as `Except.error` carrying the exit
code. -/
def getGitDataEarlyVariant (statusOut diffOut : String) :
    Except Nat (String × String) :=
  if jsTrim statusOut = "" then .error 0
  else
    .ok (jsTrim statusOut,
      if jsTrim diffOut = "" then "No diff available" else jsTrim diffOut)

/-! ## Main control flow (later variant lines 816–952) -/

/-- `args.useAiConventional !== undefined ? args.useAiConventional :
(args.conventionalType ?? false)`, coerced by its later use as a JS
condition (a non-empty string is truthy). -/
def useConventionalOf (args : CliArgs) : Bool :=
  match args.useAiConventional with
  | some b => b
  | none =>
    match args.conventionalType with
    | some s => s != ""
    | none => false

/-- The `conventionalText` value prepared in `generateCommitMessage`. -/
def conventionalTextOf (useConventional : Bool) : String :=
  if useConventional then
    "Use the Conventional Commits format (type: scope: subject)."
  else
    "Do not use Conventional Commit types (e.g., feat:, fix:, docs:)."

/-- The `examples` value prepared in `generateCommitMessage`. -/
def examplesOf (useConventional : Bool) : String :=
  if useConventional then
    "\n- feat(auth): add OAuth2 login support for Google accounts\n- fix: correct user ID validation in registration endpoint\n- refactor: extract shared logic into utility functions\n- docs: update README with setup instructions for new contributors\n- style: reformat codebase with Prettier\n- chore: bump dependencies to latest minor versions\n- test: add unit tests for payment processing module\n- perf: optimize image loading for faster page render\n        "
  else
    "\n- Add OAuth2 login support for Google accounts\n- Correct user ID validation in registration endpoint\n- Extract shared logic into utility functions\n- Update README with setup instructions for new contributors\n- Reformat codebase with Prettier\n- Upgrade dependencies to latest minor versions\n- Add unit tests for payment processing module\n- Optimize image loading for faster page render\n"

/-- The substitution object built in `generateCommitMessage`
(lines 680–711). -/
def promptValues (g : GitData)
    (userContext recentCommits branchName gitDiffSummary : String)
    (useConventional : Bool) : List (String × String) :=
  [("gitStagedChanges", g.gitStagedChanges),
   ("gitDiff", g.gitDiff),
   ("userContext", userContext),
   ("recentCommits", recentCommits),
   ("branchName", branchName),
   ("gitDiffSummary", gitDiffSummary),
   ("conventionalText", conventionalTextOf useConventional),
   ("examples", examplesOf useConventional)]

/-- `args.model || "llama3.2:latest"`. -/
def modelNameOf (args : CliArgs) : String :=
  match args.model with
  | some m => if m = "" then "llama3.2:latest" else m
  | none => "llama3.2:latest"

/-- Externally visible events of one run of `main`. -/
inductive Ev where
  | infoCheckingStaged : Ev
  | gitReported (hasStaged : Bool) : Ev
  | promptUserContext : Ev
  | fetchRecentAndBranch : Ev
  | templateRejected (missing : List String) : Ev
  | providerCall (model prompt : String) : Ev
  | warnGeneric : Ev
  | displayMessage (m : String) : Ev
  | clipboardCopy (m : String) : Ev
  | interactiveLoop : Ev
  | failedMessage : Ev
  | exitCode (n : Nat) : Ev
  deriving DecidableEq

/-- The control flow of the later-variant `main` (lines 816–952), as the list
of externally visible events, given the parsed arguments and the pure inputs:
the two staged-change subprocess outputs, the interactive context answer, the
recent-commit and branch outputs, the loaded template text and the raw model
response.  `main` never inspects `hasStaged`; the accept/regenerate loop
after the first display (reached only without `autoCopy`) is summarized by a
single `interactiveLoop` event, which is beyond the provider call at issue. -/
def mainEvents (args : CliArgs)
    (statusOut diffOut userInput recentCommits branchName template
     modelResponse : String) : List Ev :=
  let g := getGitData statusOut diffOut
  let userContext := match args.context with | some c => c | none => userInput
  let pre := [Ev.infoCheckingStaged, Ev.gitReported g.hasStaged] ++
    (match args.context with | some _ => [] | none => [Ev.promptUserContext]) ++
    [Ev.fetchRecentAndBranch]
  if args.promptTemplate.isSome ∧ missingPlaceholders template ≠ [] then
    pre ++ [Ev.templateRejected (missingPlaceholders template), Ev.exitCode 1]
  else
    let useConv := useConventionalOf args
    let values := promptValues g userContext recentCommits branchName
      (summarizeDiff g.gitDiff) useConv
    let prompt := fillTemplate template values
    let aiMessage := aiCleanMessage modelResponse
    pre ++ [Ev.providerCall (modelNameOf args) prompt] ++
      (if warnGate aiMessage then [Ev.warnGeneric] else []) ++
      (if aiMessage ≠ "" then
        let cleaned := cleanAndFormatMessage aiMessage args
        [Ev.displayMessage cleaned] ++
        (if args.autoCopy = some true then
          [Ev.clipboardCopy cleaned, Ev.exitCode 0]
         else [Ev.interactiveLoop])
       else [Ev.failedMessage])

/-! ## Predicates used in theorem statements -/

/-- Does the ticket id have the shape `[A-Z]+-[0-9]+` the dedup regex
assumes? -/
def ticketShape (t : String) : Bool :=
  !(t.data.takeWhile isUpperAZ).isEmpty &&
  (match t.data.dropWhile isUpperAZ with
   | c :: ds => c = '-' && !ds.isEmpty && ds.all Char.isDigit
   | [] => false)

/-- Does the string end in a (JS) whitespace character? -/
def endsInJsSpace (s : String) : Bool :=
  match s.data.reverse with
  | [] => false
  | c :: _ => isJsSpace c

/-- Is the first character a quote character? -/
def firstIsQuote (l : List Char) : Bool :=
  match l with
  | [] => false
  | c :: _ => isQuoteChar c

/-- Is the first character a (JS) whitespace character? -/
def firstIsJsSpace (l : List Char) : Bool :=
  match l with
  | [] => false
  | c :: _ => isJsSpace c

/-! ## General lemmas -/

/-- `containsSub` agrees with list-infix containment. -/
theorem containsSub_iff (h n : List Char) : containsSub h n = true ↔ n <:+: h := by
  induction h with
  | nil =>
    rw [containsSub]
    simp only [List.isEmpty_iff]
    constructor
    · intro he; simp [he]
    · intro he; exact List.eq_nil_of_infix_nil he
  | cons c t ih =>
    rw [containsSub]
    simp only [Bool.or_eq_true, List.isPrefixOf_iff_prefix, ih]
    exact (List.infix_cons_iff).symm

/-- Appending two strings concatenates their character lists. -/
theorem data_append (s t : String) : (s ++ t).data = s.data ++ t.data := rfl

/-! ## Template-engine lemmas -/

/-- Unfolding: the empty template. -/
theorem fillAux_nil (values : List (String × String)) : fillAux values [] = [] := by
  rw [fillAux]

/-- Unfolding: a character other than `{` passes through and the scan
continues. -/
theorem fillAux_cons_of_ne (values : List (String × String)) (c : Char)
    (rest : List Char) (hc : ¬ c = '{') :
    fillAux values (c :: rest) = c :: fillAux values rest := by
  rw [fillAux]
  simp [hc]

/-- Unfolding: at `{k}` with a non-empty all-word-character key, the scan
consumes the token and substitutes when the key is bound. -/
theorem fillAux_at_key (values : List (String × String)) (k rest : List Char)
    (hk : k ≠ []) (hw : ∀ c ∈ k, isWordChar c) :
    fillAux values ('{' :: (k ++ '}' :: rest)) =
      match lookupValue values ⟨k⟩ with
      | some v => v.data ++ fillAux values rest
      | none => '{' :: (k ++ '}' :: fillAux values rest) := by
  rw [fillAux]
  have ht : (k ++ '}' :: rest).takeWhile isWordChar = k := by
    rw [List.takeWhile_append_of_pos hw]
    simp [List.takeWhile, isWordChar]
  have hd : (k ++ '}' :: rest).dropWhile isWordChar = '}' :: rest := by
    rw [List.dropWhile_append_of_pos hw]
    simp [List.dropWhile, isWordChar]
  simp only [if_pos rfl, ht, hd]
  have hne : (k.isEmpty = false) := by
    cases k with
    | nil => exact absurd rfl hk
    | cons a b => rfl
  simp [hne, isRBraceHead]

/-- Unfolding for `templateKeys` at a recognized token. -/
theorem templateKeys_at_key (k rest : List Char)
    (hk : k ≠ []) (hw : ∀ c ∈ k, isWordChar c) :
    templateKeys ('{' :: (k ++ '}' :: rest)) =
      (⟨k⟩ : String) :: templateKeys rest := by
  rw [templateKeys]
  have ht : (k ++ '}' :: rest).takeWhile isWordChar = k := by
    rw [List.takeWhile_append_of_pos hw]
    simp [List.takeWhile, isWordChar]
  have hd : (k ++ '}' :: rest).dropWhile isWordChar = '}' :: rest := by
    rw [List.dropWhile_append_of_pos hw]
    simp [List.dropWhile, isWordChar]
  simp only [if_pos rfl, ht, hd]
  have hne : (k.isEmpty = false) := by
    cases k with
    | nil => exact absurd rfl hk
    | cons a b => rfl
  simp [hne, isRBraceHead]

/-- `fillAux_at_key` specialized to a bound key. -/
theorem fillAux_at_key_some (values : List (String × String))
    (k : List Char) (v : String) (rest : List Char)
    (hk : k ≠ []) (hw : ∀ c ∈ k, isWordChar c)
    (hsome : lookupValue values ⟨k⟩ = some v) :
    fillAux values ('{' :: (k ++ '}' :: rest)) =
      v.data ++ fillAux values rest := by
  rw [fillAux_at_key values k rest hk hw, hsome]

/-- `fillAux_at_key` specialized to an unbound key. -/
theorem fillAux_at_key_none (values : List (String × String))
    (k rest : List Char) (hk : k ≠ []) (hw : ∀ c ∈ k, isWordChar c)
    (hnone : lookupValue values ⟨k⟩ = none) :
    fillAux values ('{' :: (k ++ '}' :: rest)) =
      '{' :: (k ++ '}' :: fillAux values rest) := by
  rw [fillAux_at_key values k rest hk hw, hnone]

/-- Brace-free text passes through the scan unchanged, prefix-wise. -/
theorem fillAux_append_of_no_brace (values : List (String × String))
    (pre l : List Char) (hpre : '{' ∉ pre) :
    fillAux values (pre ++ l) = pre ++ fillAux values l := by
  induction pre with
  | nil => rfl
  | cons c t ih =>
    have hc : ¬ c = '{' := by
      intro hcc
      exact hpre (hcc ▸ List.mem_cons_self c t)
    have ht : '{' ∉ t := fun hm => hpre (List.mem_cons_of_mem c hm)
    simp only [List.cons_append, fillAux_cons_of_ne values c _ hc, ih ht]

/-- `isRBraceHead` characterization. -/
theorem isRBraceHead_iff (l : List Char) :
    isRBraceHead l = true ↔ ∃ t, l = '}' :: t := by
  cases l with
  | nil => simp [isRBraceHead]
  | cons c t =>
    rw [isRBraceHead]
    simp only [decide_eq_true_eq]
    constructor
    · intro hc; exact ⟨t, by rw [hc]⟩
    · rintro ⟨t', ht'⟩; cases ht'; rfl

/-- Unfolding of the `{`-case of `fillAux` with the scan condition left as an
`if`. -/
theorem fillAux_brace (values : List (String × String)) (rest : List Char) :
    fillAux values ('{' :: rest) =
      if !(rest.takeWhile isWordChar).isEmpty &&
          isRBraceHead (rest.dropWhile isWordChar) then
        match lookupValue values ⟨rest.takeWhile isWordChar⟩ with
        | some v => v.data ++ fillAux values ((rest.dropWhile isWordChar).tail)
        | none => '{' :: (rest.takeWhile isWordChar ++
            '}' :: fillAux values ((rest.dropWhile isWordChar).tail))
      else '{' :: fillAux values rest := by
  rw [fillAux]
  simp only [if_pos]

/-- Unfolding of the `{`-case of `templateKeys`. -/
theorem templateKeys_brace (rest : List Char) :
    templateKeys ('{' :: rest) =
      if !(rest.takeWhile isWordChar).isEmpty &&
          isRBraceHead (rest.dropWhile isWordChar) then
        (⟨rest.takeWhile isWordChar⟩ : String) ::
          templateKeys ((rest.dropWhile isWordChar).tail)
      else templateKeys rest := by
  rw [templateKeys]
  simp only [if_pos]

/-- Unfolding: the empty template has no keys. -/
theorem templateKeys_nil : templateKeys [] = [] := by
  rw [templateKeys]

/-- Unfolding: a non-`{` character contributes no key. -/
theorem templateKeys_cons_of_ne (c : Char) (rest : List Char) (hc : ¬ c = '{') :
    templateKeys (c :: rest) = templateKeys rest := by
  rw [templateKeys]
  simp [hc]

/-- A template none of whose recognized keys is bound is left unchanged. -/
theorem fillAux_id_of_unbound (values : List (String × String)) :
    ∀ n (l : List Char), l.length ≤ n →
      (∀ k ∈ templateKeys l, lookupValue values k = none) →
      fillAux values l = l := by
  intro n
  induction n with
  | zero =>
    intro l hlen _
    have : l = [] := List.length_eq_zero.mp (Nat.le_zero.mp hlen)
    rw [this, fillAux_nil]
  | succ n ih =>
    intro l hlen hkeys
    match l with
    | [] => rw [fillAux_nil]
    | c :: rest =>
      by_cases hc : c = '{'
      · subst hc
        rw [fillAux_brace]
        rw [templateKeys_brace] at hkeys
        by_cases hcond :
            (!(rest.takeWhile isWordChar).isEmpty &&
              isRBraceHead (rest.dropWhile isWordChar)) = true
        · rw [if_pos hcond]
          rw [if_pos hcond] at hkeys
          have hbr : isRBraceHead (rest.dropWhile isWordChar) = true :=
            (Bool.and_eq_true .. ▸ hcond).2
          obtain ⟨tl, htl⟩ := (isRBraceHead_iff _).mp hbr
          have hrest : rest.takeWhile isWordChar ++ '}' :: tl = rest := by
            have h0 := List.takeWhile_append_dropWhile (p := isWordChar) (l := rest)
            rw [htl] at h0
            exact h0
          have hkey : lookupValue values ⟨rest.takeWhile isWordChar⟩ = none :=
            hkeys _ (List.mem_cons_self _ _)
          have htail : (rest.dropWhile isWordChar).tail = tl := by rw [htl]; rfl
          rw [htail, hkey]
          have hlt : tl.length ≤ n := by
            have h1 : ('}' :: tl).length ≤ rest.length := by
              rw [← htl]; exact length_dropWhile_le _ _
            simp only [List.length_cons] at h1 hlen
            omega
          rw [ih tl hlt (fun k hk => hkeys k (by
            rw [htail]; exact List.mem_cons_of_mem _ hk))]
          simp only [List.cons.injEq, true_and]
          exact hrest
        · rw [if_neg hcond]
          rw [if_neg hcond] at hkeys
          have hlen' : rest.length ≤ n := by
            simp only [List.length_cons] at hlen; omega
          rw [ih rest hlen' hkeys]
      · rw [fillAux_cons_of_ne values c rest hc,
          templateKeys_cons_of_ne c rest hc] at *
        have hlen' : rest.length ≤ n := by
          simp only [List.length_cons] at hlen; omega
        rw [ih rest hlen' hkeys]

/-- If some element of `l` fails `p`, `takeWhile` over an append stops
inside `l`. -/
theorem takeWhile_append_of_drop_ne_nil (p : Char → Bool) (l m : List Char)
    (h : l.dropWhile p ≠ []) :
    (l ++ m).takeWhile p = l.takeWhile p := by
  induction l with
  | nil => exact absurd rfl h
  | cons c t ih =>
    by_cases hc : p c
    · simp only [List.cons_append, List.takeWhile_cons, hc, if_true]
      rw [ih (by simpa [List.dropWhile_cons, hc] using h)]
    · simp [List.takeWhile_cons, hc]

/-- If some element of `l` fails `p`, `dropWhile` over an append stops
inside `l`. -/
theorem dropWhile_append_of_drop_ne_nil (p : Char → Bool) (l m : List Char)
    (h : l.dropWhile p ≠ []) :
    (l ++ m).dropWhile p = l.dropWhile p ++ m := by
  induction l with
  | nil => exact absurd rfl h
  | cons c t ih =>
    by_cases hc : p c
    · simp only [List.cons_append, List.dropWhile_cons, hc, if_true]
      rw [ih (by simpa [List.dropWhile_cons, hc] using h)]
    · simp [List.dropWhile_cons, hc]

/-- The head of a non-empty `dropWhile` result fails the predicate. -/
theorem dropWhile_head_false (p : Char → Bool) (l : List Char) (c : Char)
    (t : List Char) (h : l.dropWhile p = c :: t) : p c = false := by
  induction l with
  | nil => simp at h
  | cons a r ih =>
    by_cases ha : p a
    · rw [List.dropWhile_cons, if_pos ha] at h
      exact ih h
    · rw [List.dropWhile_cons, if_neg ha] at h
      cases h
      exact Bool.of_not_eq_true ha

/-- A brace-enclosed token whose body contains a non-word character (and no
brace) is not recognized by the scan and passes through unchanged. -/
theorem fillAux_at_bad_token (values : List (String × String))
    (k rest : List Char) (hnw : ∃ c ∈ k, isWordChar c = false)
    (hlb : '{' ∉ k) (hrb : '}' ∉ k) :
    fillAux values ('{' :: (k ++ '}' :: rest)) =
      '{' :: (k ++ '}' :: fillAux values rest) := by
  have hdk : k.dropWhile isWordChar ≠ [] := by
    intro hnil
    obtain ⟨c, hc, hcw⟩ := hnw
    have := List.dropWhile_eq_nil_iff.mp hnil c hc
    rw [hcw] at this
    exact absurd this (by simp)
  obtain ⟨b, k2, hbk⟩ : ∃ b k2, k.dropWhile isWordChar = b :: k2 := by
    cases hx : k.dropWhile isWordChar with
    | nil => exact absurd hx hdk
    | cons b k2 => exact ⟨b, k2, rfl⟩
  have hbmem : b ∈ k := by
    have hsuf : k.dropWhile isWordChar <:+ k := List.dropWhile_suffix _
    exact hsuf.subset (hbk ▸ List.mem_cons_self b k2)
  have hbne : ¬ b = '}' := fun hb => hrb (hb ▸ hbmem)
  rw [fillAux_brace]
  have hdrop : (k ++ '}' :: rest).dropWhile isWordChar =
      b :: (k2 ++ '}' :: rest) := by
    rw [dropWhile_append_of_drop_ne_nil _ _ _ hdk, hbk]
    rfl
  have hcond : (!((k ++ '}' :: rest).takeWhile isWordChar).isEmpty &&
      isRBraceHead ((k ++ '}' :: rest).dropWhile isWordChar)) = false := by
    rw [hdrop]
    have : isRBraceHead (b :: (k2 ++ '}' :: rest)) = false := by
      rw [isRBraceHead]
      simp [hbne]
    rw [this]
    simp
  rw [hcond]
  simp only [Bool.false_eq_true, if_false]
  rw [fillAux_append_of_no_brace values k _ hlb,
    fillAux_cons_of_ne values '}' rest (by decide)]

/-- `dropWhile` is the identity on a list whose head (if any) fails the
predicate. -/
theorem dropWhile_id_of_first_false (p : Char → Bool) (l : List Char)
    (h : l ≠ [] → p (l.headD ' ') = false) :
    l.dropWhile p = l := by
  cases l with
  | nil => rfl
  | cons c t =>
    have hc := h (by simp)
    simp only [List.headD_cons] at hc
    rw [List.dropWhile_cons, if_neg (by simp [hc])]

/-! ## Quote-stripping lemmas (C7) -/

/-- `dropWhile isQuoteChar` is the identity when the first character is not a
quote. -/
theorem dropWhile_quote_id (l : List Char) (h : firstIsQuote l = false) :
    l.dropWhile isQuoteChar = l := by
  apply dropWhile_id_of_first_false
  intro hne
  cases l with
  | nil => exact absurd rfl hne
  | cons c t => rw [firstIsQuote] at h; simpa using h

/-- `stripEdgeQuotes` removes exactly one leading and one trailing run of
quote characters. -/
theorem stripEdgeQuotes_wrap (q1 s q2 : List Char)
    (h1 : ∀ c ∈ q1, isQuoteChar c = true) (h2 : ∀ c ∈ q2, isQuoteChar c = true)
    (hh : firstIsQuote s = false) (ht : firstIsQuote s.reverse = false) :
    stripEdgeQuotes (q1 ++ s ++ q2) = s := by
  unfold stripEdgeQuotes
  rw [List.append_assoc, List.dropWhile_append_of_pos (fun a ha => h1 a ha)]
  cases s with
  | nil =>
    simp only [List.nil_append]
    rw [List.dropWhile_eq_nil_iff.mpr (fun a ha => h2 a ha)]
    rfl
  | cons c s' =>
    rw [firstIsQuote] at hh
    rw [List.cons_append, List.dropWhile_cons, if_neg (by simp [hh])]
    rw [List.reverse_cons, List.reverse_append, List.append_assoc,
      List.dropWhile_append_of_pos
        (fun a ha => h2 a (List.mem_reverse.mp ha))]
    have hrev : firstIsQuote (s'.reverse ++ [c]) = false := by
      rw [← List.reverse_cons]; exact ht
    rw [dropWhile_quote_id _ hrev, ← List.reverse_cons, List.reverse_reverse]

/-! ## Ticket-reference lemmas (C3) -/

/-- Destructuring of a well-shaped ticket id. -/
theorem ticketShape_spec (t : String) (h : ticketShape t = true) :
    ∃ us ds, t.data = us ++ '-' :: ds ∧ us ≠ [] ∧
      (∀ c ∈ us, isUpperAZ c = true) ∧ ds ≠ [] ∧
      (∀ c ∈ ds, Char.isDigit c = true) := by
  rw [ticketShape] at h
  rcases (Bool.and_eq_true _ _).mp h with ⟨hus, hmatch⟩
  cases hd : t.data.dropWhile isUpperAZ with
  | nil => rw [hd] at hmatch; simp at hmatch
  | cons c ds =>
    rw [hd] at hmatch
    simp only [Bool.and_eq_true, decide_eq_true_eq, Bool.not_eq_eq_eq_not,
      Bool.not_true, List.all_eq_true] at hmatch
    rcases hmatch with ⟨⟨hc, hds⟩, hdig⟩
    subst hc
    refine ⟨t.data.takeWhile isUpperAZ, ds, ?_, ?_, ?_, ?_, hdig⟩
    · conv_lhs => rw [← List.takeWhile_append_dropWhile (p := isUpperAZ)
        (l := t.data)]
      rw [hd]
    · intro hnil
      rw [hnil] at hus
      simp at hus
    · intro x hx
      exact List.mem_takeWhile_imp hx
    · intro hnil
      rw [hnil] at hds
      simp at hds

/-- Computation of the ticket-suffix parse on a well-shaped reversed
suffix. -/
theorem stripTicketAux_eval (urev us ds : List Char)
    (hus : us ≠ []) (husu : ∀ c ∈ us, isUpperAZ c = true)
    (hds : ds ≠ []) (hdsd : ∀ c ∈ ds, Char.isDigit c = true)
    (hu : urev.dropWhile isJsSpace = urev) :
    stripTicketAux
      (')' :: (ds.reverse ++ '-' :: (us.reverse ++ '(' :: ' ' :: urev))) =
      some urev := by
  have h0 : List.dropWhile isJsSpace
      (')' :: (ds.reverse ++ '-' :: (us.reverse ++ '(' :: ' ' :: urev))) =
      ')' :: (ds.reverse ++ '-' :: (us.reverse ++ '(' :: ' ' :: urev)) := by
    rw [List.dropWhile_cons]
    simp [isJsSpace]
  have hdsr : ∀ c ∈ ds.reverse, Char.isDigit c = true := by
    intro c hc; exact hdsd c (List.mem_reverse.mp hc)
  have ht1 : List.takeWhile Char.isDigit
      (ds.reverse ++ '-' :: (us.reverse ++ '(' :: ' ' :: urev)) = ds.reverse := by
    rw [List.takeWhile_append_of_pos hdsr, List.takeWhile_cons]
    simp [Char.isDigit]
  have hd1 : List.dropWhile Char.isDigit
      (ds.reverse ++ '-' :: (us.reverse ++ '(' :: ' ' :: urev)) =
      '-' :: (us.reverse ++ '(' :: ' ' :: urev) := by
    rw [List.dropWhile_append_of_pos hdsr, List.dropWhile_cons]
    simp [Char.isDigit]
  have hne1 : ds.reverse.isEmpty = false := by
    cases hx : ds.reverse with
    | nil => exact absurd (by simpa using hx) hds
    | cons a b => rfl
  have husr : ∀ c ∈ us.reverse, isUpperAZ c = true := by
    intro c hc; exact husu c (List.mem_reverse.mp hc)
  have ht2 : (us.reverse ++ '(' :: ' ' :: urev).takeWhile isUpperAZ =
      us.reverse := by
    rw [List.takeWhile_append_of_pos husr, List.takeWhile_cons]
    simp [isUpperAZ]
  have hd2 : (us.reverse ++ '(' :: ' ' :: urev).dropWhile isUpperAZ =
      '(' :: ' ' :: urev := by
    rw [List.dropWhile_append_of_pos husr, List.dropWhile_cons]
    simp [isUpperAZ]
  have hne2 : us.reverse.isEmpty = false := by
    cases hx : us.reverse with
    | nil => exact absurd (by simpa using hx) hus
    | cons a b => rfl
  have hlast : List.dropWhile isJsSpace (' ' :: urev) = urev := by
    rw [List.dropWhile_cons]
    simp only [isJsSpace]
    simp [hu]
  rw [stripTicketAux, h0]
  simp only [ht1, hd1, ht2, hd2, hne1, hne2, hlast]
  simp

/-- Appending a fresh well-shaped ticket suffix and stripping it again is the
identity, provided the base does not end in whitespace. -/
theorem stripTicketRef_append (u t : String) (hshape : ticketShape t = true)
    (hend : endsInJsSpace u = false) :
    stripTicketRef (u ++ " (" ++ t ++ ")") = u := by
  obtain ⟨us, ds, htd, hus, husu, hds, hdsd⟩ := ticketShape_spec t hshape
  have hu : u.data.reverse.dropWhile isJsSpace = u.data.reverse := by
    cases hr : u.data.reverse with
    | nil => rfl
    | cons c w =>
      have hc : isJsSpace c = false := by
        have h1 : endsInJsSpace u = isJsSpace c := by rw [endsInJsSpace, hr]
        rw [← h1]; exact hend
      rw [List.dropWhile_cons, if_neg (by simp [hc])]
  have hrev : (u ++ " (" ++ t ++ ")").data.reverse =
      ')' :: (ds.reverse ++ '-' :: (us.reverse ++ '(' :: ' ' :: u.data.reverse)) := by
    simp only [data_append, htd]
    simp [List.reverse_append]
  rw [stripTicketRef, hrev,
    stripTicketAux_eval u.data.reverse us ds hus husu hds hdsd hu]
  simp

/-- With a supplied (non-empty) ticket id, `formatCommitMessage` always
strips then appends. -/
theorem formatCommitMessage_eq (m t : String) (ht : ¬ t = "") :
    formatCommitMessage m t = stripTicketRef m ++ " (" ++ t ++ ")" := by
  rw [formatCommitMessage, if_neg ht]

/-- Ticket-append is idempotent for well-shaped ticket ids whenever the
stripped base does not end in whitespace. -/
theorem formatCommitMessage_idem (m t : String) (ht : ¬ t = "")
    (hshape : ticketShape t = true)
    (hend : endsInJsSpace (stripTicketRef m) = false) :
    formatCommitMessage (formatCommitMessage m t) t =
      formatCommitMessage m t := by
  rw [formatCommitMessage_eq m t ht, formatCommitMessage_eq _ t ht,
    stripTicketRef_append _ t hshape hend]

/-- Enumeration of the JS whitespace characters. -/
theorem isJsSpace_cases (c : Char) (h : isJsSpace c = true) :
    c = ' ' ∨ c = '\t' ∨ c = '\n' ∨ c = '\r' ∨ c = '\x0b' ∨ c = '\x0c' ∨
    c = ' ' := by
  rw [isJsSpace] at h
  simp only [Bool.or_eq_true, decide_eq_true_eq] at h
  tauto

/-- A whitespace character is not an ASCII letter. -/
theorem isJsSpace_not_alpha (c : Char) (h : isJsSpace c = true) :
    Char.isAlpha c = false := by
  rcases isJsSpace_cases c h with h | h | h | h | h | h | h <;> subst h <;> decide

/-- A whitespace character is not an opening parenthesis. -/
theorem isJsSpace_ne_lparen (c : Char) (h : isJsSpace c = true) : ¬ c = '(' := by
  rcases isJsSpace_cases c h with h | h | h | h | h | h | h <;> subst h <;> decide

/-! ## Conventional-prefix lemmas (C5) -/

/-- The optional scope group consumes `(inner)` when `inner` has no closing
parenthesis. -/
theorem convScopeRem_scope (inner rest : List Char) (hi : ')' ∉ inner) :
    convScopeRem ('(' :: (inner ++ ')' :: rest)) = some rest := by
  rw [convScopeRem]
  have hdrop : List.dropWhile (fun x => !(x = ')')) (inner ++ ')' :: rest) =
      ')' :: rest := by
    rw [List.dropWhile_append_of_pos (by
      intro a ha
      simp only [Bool.not_eq_eq_eq_not, Bool.not_true, decide_eq_false_iff_not]
      exact fun hq => hi (hq ▸ ha)), List.dropWhile_cons]
    simp
  simp [hdrop]

/-- The optional scope group consumes nothing when the next character is not
an opening parenthesis. -/
theorem convScopeRem_no_scope (l : List Char)
    (h : l ≠ [] → ¬ l.headD ' ' = '(') :
    convScopeRem l = some l := by
  cases l with
  | nil => rfl
  | cons c t =>
    have hc := h (by simp)
    simp only [List.headD_cons] at hc
    rw [convScopeRem]
    simp [hc]

/-- Evaluation of the conventional-prefix matcher on a decomposed prefix with
a parenthesized scope. -/
theorem convMatchRem_scope (ltrs inner ws1 ws2 rest : List Char)
    (hl1 : ltrs ≠ []) (hl2 : ∀ c ∈ ltrs, Char.isAlpha c = true)
    (hi : ')' ∉ inner)
    (hw1 : ∀ c ∈ ws1, isJsSpace c = true) (hw2 : ∀ c ∈ ws2, isJsSpace c = true)
    (hr : firstIsJsSpace rest = false) :
    convMatchRem
      (ltrs ++ '(' :: (inner ++ ')' :: (ws1 ++ ':' :: (ws2 ++ rest)))) =
      some rest := by
  have htake : List.takeWhile Char.isAlpha
      (ltrs ++ '(' :: (inner ++ ')' :: (ws1 ++ ':' :: (ws2 ++ rest)))) =
      ltrs := by
    rw [List.takeWhile_append_of_pos hl2, List.takeWhile_cons]
    simp [Char.isAlpha, Char.isUpper, Char.isLower]
  have hdrop : List.dropWhile Char.isAlpha
      (ltrs ++ '(' :: (inner ++ ')' :: (ws1 ++ ':' :: (ws2 ++ rest)))) =
      '(' :: (inner ++ ')' :: (ws1 ++ ':' :: (ws2 ++ rest))) := by
    rw [List.dropWhile_append_of_pos hl2, List.dropWhile_cons]
    simp [Char.isAlpha, Char.isUpper, Char.isLower]
  have hne : ltrs.isEmpty = false := by
    cases hx : ltrs with
    | nil => exact absurd hx hl1
    | cons a b => rfl
  have hws1 : List.dropWhile isJsSpace (ws1 ++ ':' :: (ws2 ++ rest)) =
      ':' :: (ws2 ++ rest) := by
    rw [List.dropWhile_append_of_pos hw1, List.dropWhile_cons]
    simp [isJsSpace]
  have hws2 : List.dropWhile isJsSpace (ws2 ++ rest) = rest := by
    rw [List.dropWhile_append_of_pos hw2]
    apply dropWhile_id_of_first_false
    intro hne2
    cases rest with
    | nil => exact absurd rfl hne2
    | cons a b => rw [firstIsJsSpace] at hr; simpa using hr
  rw [convMatchRem, htake, hdrop, convScopeRem_scope _ _ hi]
  simp [hne, hws1, hws2]

/-- Evaluation of the conventional-prefix matcher on a decomposed prefix
without a scope. -/
theorem convMatchRem_noscope (ltrs ws1 ws2 rest : List Char)
    (hl1 : ltrs ≠ []) (hl2 : ∀ c ∈ ltrs, Char.isAlpha c = true)
    (hw1 : ∀ c ∈ ws1, isJsSpace c = true) (hw2 : ∀ c ∈ ws2, isJsSpace c = true)
    (hr : firstIsJsSpace rest = false) :
    convMatchRem (ltrs ++ (ws1 ++ ':' :: (ws2 ++ rest))) = some rest := by
  have htake : List.takeWhile Char.isAlpha
      (ltrs ++ (ws1 ++ ':' :: (ws2 ++ rest))) = ltrs := by
    rw [List.takeWhile_append_of_pos hl2]
    cases hx : ws1 with
    | nil =>
      rw [List.nil_append, List.takeWhile_cons]
      simp [Char.isAlpha, Char.isUpper, Char.isLower]
    | cons a b =>
      have ha : isJsSpace a = true := hw1 a (by rw [hx]; simp)
      rw [List.cons_append, List.takeWhile_cons]
      simp [isJsSpace_not_alpha a ha]
  have hdrop : List.dropWhile Char.isAlpha
      (ltrs ++ (ws1 ++ ':' :: (ws2 ++ rest))) = ws1 ++ ':' :: (ws2 ++ rest) := by
    rw [List.dropWhile_append_of_pos hl2]
    cases hx : ws1 with
    | nil =>
      rw [List.nil_append, List.dropWhile_cons]
      simp [Char.isAlpha, Char.isUpper, Char.isLower]
    | cons a b =>
      have ha : isJsSpace a = true := hw1 a (by rw [hx]; simp)
      rw [List.cons_append, List.dropWhile_cons]
      simp [isJsSpace_not_alpha a ha]
  have hne : ltrs.isEmpty = false := by
    cases hx : ltrs with
    | nil => exact absurd hx hl1
    | cons a b => rfl
  have hscope : convScopeRem (ws1 ++ ':' :: (ws2 ++ rest)) =
      some (ws1 ++ ':' :: (ws2 ++ rest)) := by
    apply convScopeRem_no_scope
    intro _
    cases hx : ws1 with
    | nil => simp
    | cons a b =>
      have ha : isJsSpace a = true := hw1 a (by rw [hx]; simp)
      simpa using isJsSpace_ne_lparen a ha
  have hws1 : List.dropWhile isJsSpace (ws1 ++ ':' :: (ws2 ++ rest)) =
      ':' :: (ws2 ++ rest) := by
    rw [List.dropWhile_append_of_pos hw1, List.dropWhile_cons]
    simp [isJsSpace]
  have hws2 : List.dropWhile isJsSpace (ws2 ++ rest) = rest := by
    rw [List.dropWhile_append_of_pos hw2]
    apply dropWhile_id_of_first_false
    intro hne2
    cases rest with
    | nil => exact absurd rfl hne2
    | cons a b => rw [firstIsJsSpace] at hr; simpa using hr
  rw [convMatchRem, htake, hdrop, hscope]
  simp [hne, hws1, hws2]

/-! ## Diff-summarizer lemmas (C6) -/

/-- `splitLines` always produces at least one segment. -/
theorem splitLines_ne_nil (l : List Char) : splitLines l ≠ [] := by
  induction l with
  | nil => simp [splitLines]
  | cons c rest ih =>
    rw [splitLines]
    by_cases hc : c = '\n'
    · simp [hc]
    · simp only [if_neg hc]
      cases hs : splitLines rest with
      | nil => simp
      | cons line ls => simp

/-- Lines split across an explicit newline concatenate. -/
theorem splitLines_append (a b : List Char) :
    splitLines (a ++ '\n' :: b) = splitLines a ++ splitLines b := by
  induction a with
  | nil =>
    rw [List.nil_append, splitLines]
    simp [splitLines]
  | cons c a' ih =>
    rw [List.cons_append, splitLines]
    by_cases hc : c = '\n'
    · rw [if_pos hc, ih]
      conv_rhs => rw [splitLines]
      rw [if_pos hc]
      simp
    · rw [if_neg hc, ih]
      conv_rhs => rw [splitLines]
      rw [if_neg hc]
      cases hs : splitLines a' with
      | nil => exact absurd hs (splitLines_ne_nil a')
      | cons line ls => simp

/-- Path extraction distributes over an explicit newline. -/
theorem extractPathsL_append (a b : List Char) :
    extractPathsL (a ++ '\n' :: b) = extractPathsL a ++ extractPathsL b := by
  unfold extractPathsL
  rw [splitLines_append, List.filterMap_append]

/-- `missingPlaceholders` is empty exactly when every required placeholder
name occurs literally in the template. -/
theorem missingPlaceholders_eq_nil_iff (t : String) :
    missingPlaceholders t = [] ↔
      ∀ p ∈ requiredPlaceholders, p.data <:+: t.data := by
  rw [missingPlaceholders, List.filter_eq_nil_iff]
  constructor
  · intro h p hp
    have h2 := h p hp
    simp only [Bool.not_eq_true', Bool.not_eq_false] at h2
    exact (containsSub_iff _ _).mp h2
  · intro h p hp
    simp only [Bool.not_eq_true', Bool.not_eq_false]
    exact (containsSub_iff _ _).mpr (h p hp)

/-! ## Claim theorems -/

/-- **C1**: `validatePromptTemplate` returns ok exactly when all seven
required placeholder names literally appear in the template text; any
non-empty set difference is the fatal validation error listing every missing
name at once; in particular, when exactly one required name is absent, the
error lists exactly that name. -/
theorem claim1_validate_template (t : String) :
    (validatePromptTemplate t = .ok ↔
      ∀ p ∈ requiredPlaceholders, p.data <:+: t.data)
    ∧ (validatePromptTemplate t ≠ .ok →
        validatePromptTemplate t = .missingErr (missingPlaceholders t) ∧
        missingPlaceholders t ≠ [])
    ∧ (∀ p ∈ requiredPlaceholders,
        (∀ q ∈ requiredPlaceholders, q ≠ p → q.data <:+: t.data) →
        ¬ p.data <:+: t.data →
        validatePromptTemplate t = .missingErr [p]) := by
  refine ⟨⟨?_, ?_⟩, ?_, ?_⟩
  · intro hok
    rw [← missingPlaceholders_eq_nil_iff]
    by_contra hne
    rw [validatePromptTemplate, if_pos hne] at hok
    exact ValidateResult.noConfusion hok
  · intro hall
    have h0 : missingPlaceholders t = [] :=
      (missingPlaceholders_eq_nil_iff t).mpr hall
    rw [validatePromptTemplate, if_neg (by simp [h0])]
  · intro hne
    by_cases h : missingPlaceholders t = []
    · exact absurd (by rw [validatePromptTemplate, if_neg (by simp [h])]) hne
    · exact ⟨by rw [validatePromptTemplate, if_pos h], h⟩
  · intro p hp hothers hnotp
    have hfilter : missingPlaceholders t = [p] := by
      rw [missingPlaceholders]
      have hcongr :
          requiredPlaceholders.filter (fun q => !(containsSub t.data q.data)) =
            requiredPlaceholders.filter (fun q => q == p) := by
        apply List.filter_congr
        intro q hq
        by_cases hqp : q = p
        · subst hqp
          have hc : containsSub t.data q.data = false := by
            cases hc : containsSub t.data q.data
            · rfl
            · exact absurd ((containsSub_iff _ _).mp hc) hnotp
          simp [hc]
        · have hc : containsSub t.data q.data = true :=
            (containsSub_iff _ _).mpr (hothers q hq hqp)
          simp [hc, hqp]
      rw [hcongr, List.filter_beq,
        List.count_eq_one_of_mem (by decide) hp, List.replicate_one]
    rw [validatePromptTemplate, if_pos (by simp [hfilter]), hfilter]

set_option maxRecDepth 40000 in
/-- **C1 witness**: a template with the six other placeholders but without
`\x7bgitDiff\x7d` is rejected listing exactly that name. -/
theorem claim1_witness :
    validatePromptTemplate
      "{gitStagedChanges}{userContext}{recentCommits}{branchName}{gitDiffSummary}{conventionalText}" =
      .missingErr ["{gitDiff}"] :=
  (claim1_validate_template _).2.2 "{gitDiff}" (by decide) (by decide) (by decide)

/-- **C2**: `fillTemplate` replaces every occurrence of `\x7bkey\x7d` for
each key bound in the map (repetitions included, shown by the prefix-generic
equations and the repeated-placeholder instance), leaves brace tokens with
unbound keys literally unchanged, and returns the text unchanged when no
recognized key is bound. -/
theorem claim2_substitute (values : List (String × String)) (k v : String)
    (pre rest : List Char) (hpre : '{' ∉ pre)
    (hk1 : k.data ≠ []) (hk2 : ∀ c ∈ k.data, isWordChar c = true) :
    (lookupValue values k = some v →
      fillAux values (pre ++ '{' :: (k.data ++ '}' :: rest)) =
        pre ++ v.data ++ fillAux values rest)
    ∧ (lookupValue values k = none →
      fillAux values (pre ++ '{' :: (k.data ++ '}' :: rest)) =
        pre ++ '{' :: (k.data ++ '}' :: fillAux values rest))
    ∧ (∀ t : String,
        (∀ key ∈ templateKeys t.data, lookupValue values key = none) →
        fillTemplate t values = t)
    ∧ fillTemplate "{a} and {a}" [("a", "X")] = "X and X" := by
  have hketa : (⟨k.data⟩ : String) = k := rfl
  refine ⟨?_, ?_, ?_, ?_⟩
  · intro hsome
    rw [fillAux_append_of_no_brace values _ _ hpre,
      fillAux_at_key_some values k.data v rest hk1 hk2 (by rw [hketa]; exact hsome)]
    simp [List.append_assoc]
  · intro hnone
    rw [fillAux_append_of_no_brace values _ _ hpre,
      fillAux_at_key_none values k.data rest hk1 hk2 (by rw [hketa]; exact hnone)]
  · intro t hkeys
    rw [fillTemplate,
      fillAux_id_of_unbound values t.data.length t.data (le_refl _) hkeys]
  · have hdata : ("{a} and {a}" : String).data =
        '{' :: (['a'] ++ '}' :: (" and ".data ++
          ('{' :: (['a'] ++ '}' :: [])))) := by decide
    rw [fillTemplate, hdata,
      fillAux_at_key_some [("a", "X")] ['a'] "X" _ (by decide) (by decide)
        (by decide),
      fillAux_append_of_no_brace _ _ _ (by decide),
      fillAux_at_key_some [("a", "X")] ['a'] "X" _ (by decide) (by decide)
        (by decide),
      fillAux_nil]
    decide

/-- **C2 witness**: the substitution equation instantiated at the map
`[("a", "X")]` and the placeholder `\x7ba\x7d`. -/
theorem claim2_witness :
    fillAux [("a", "X")] ([] ++ '{' :: ("a".data ++ '}' :: [])) =
      [] ++ "X".data ++ fillAux [("a", "X")] [] :=
  (claim2_substitute [("a", "X")] "a" "X" [] [] (by decide) (by decide)
    (by decide)).1 (by decide)

/-- **C10**: the template engine recognizes only brace tokens whose body
consists entirely of word characters; a brace-enclosed token containing any
other character passes through unchanged even when the map binds that exact
name. -/
theorem claim10_token_chars (values : List (String × String)) (k : String)
    (rest : List Char) (hnw : ∃ c ∈ k.data, isWordChar c = false)
    (hlb : '{' ∉ k.data) (hrb : '}' ∉ k.data) :
    fillAux values ('{' :: (k.data ++ '}' :: rest)) =
      '{' :: (k.data ++ '}' :: fillAux values rest)
    ∧ fillTemplate ("\x7b" ++ k ++ "\x7d") values = "\x7b" ++ k ++ "\x7d"
    ∧ fillTemplate "{foo-bar}" [("foo-bar", "X")] = "{foo-bar}"
    ∧ fillTemplate "{a b}" [("a b", "Y")] = "{a b}" := by
  refine ⟨fillAux_at_bad_token values k.data rest hnw hlb hrb, ?_, ?_, ?_⟩
  · have hd : ("\x7b" ++ k ++ "\x7d").data = '{' :: (k.data ++ '}' :: []) := by
      simp [data_append]
    rw [fillTemplate, hd,
      fillAux_at_bad_token values k.data [] hnw hlb hrb, fillAux_nil, ← hd]
  · have hd : ("{foo-bar}" : String).data =
        '{' :: ("foo-bar".data ++ '}' :: []) := by decide
    rw [fillTemplate, hd,
      fillAux_at_bad_token _ _ _ (by decide) (by decide) (by decide),
      fillAux_nil]
    decide
  · have hd : ("{a b}" : String).data =
        '{' :: ("a b".data ++ '}' :: []) := by decide
    rw [fillTemplate, hd,
      fillAux_at_bad_token _ _ _ (by decide) (by decide) (by decide),
      fillAux_nil]
    decide

/-- **C10 witness**: the pass-through equation instantiated at the token
`\x7bfoo-bar\x7d` with the map binding exactly that name. -/
theorem claim10_witness :
    fillAux [("foo-bar", "X")] ('{' :: ("foo-bar".data ++ '}' :: [])) =
      '{' :: ("foo-bar".data ++ '}' :: fillAux [("foo-bar", "X")] []) :=
  (claim10_token_chars [("foo-bar", "X")] "foo-bar" [] (by decide) (by decide)
    (by decide)).1

/-- **C3**: with a supplied ticket id the step strips a pre-existing trailing
`(LETTERS-DIGITS)` suffix and then appends the new one; on `"Update docs"`
with `"PROJ-9"` this yields `"Update docs (PROJ-9)"`, and re-applying with
the same id does not duplicate the suffix (idempotence, for ids of the shape
the dedup regex recognizes and bases not ending in whitespace). -/
theorem claim3_ticket_append (m t : String) (ht : ¬ t = "")
    (hshape : ticketShape t = true)
    (hend : endsInJsSpace (stripTicketRef m) = false) :
    formatCommitMessage m t = stripTicketRef m ++ " (" ++ t ++ ")"
    ∧ formatCommitMessage (formatCommitMessage m t) t = formatCommitMessage m t
    ∧ formatCommitMessage "Update docs" "PROJ-9" = "Update docs (PROJ-9)"
    ∧ formatCommitMessage "Update docs (PROJ-9)" "PROJ-9" =
        "Update docs (PROJ-9)" :=
  ⟨formatCommitMessage_eq m t ht,
   formatCommitMessage_idem m t ht hshape hend, by decide, by decide⟩

/-- **C3 witness**: the strip-then-append equation and idempotence at
`"Update docs"` / `"PROJ-9"`. -/
theorem claim3_witness :
    formatCommitMessage "Update docs" "PROJ-9" =
      stripTicketRef "Update docs" ++ " (" ++ "PROJ-9" ++ ")"
    ∧ formatCommitMessage (formatCommitMessage "Update docs" "PROJ-9")
        "PROJ-9" = formatCommitMessage "Update docs" "PROJ-9" :=
  ⟨(claim3_ticket_append "Update docs" "PROJ-9" (by decide) (by decide)
      (by decide)).1,
   (claim3_ticket_append "Update docs" "PROJ-9" (by decide) (by decide)
      (by decide)).2.1⟩

/-- **C5**: with a custom type non-empty after trimming, an existing
`type(scope):` or `type:` prefix (case-insensitive letters, optional scope,
optional whitespace around the colon) is replaced by `"<customType>: "`, and
a message without such a prefix gets it prepended; `"feat(x): add thing"`
with type `"fix"` becomes `"fix: add thing"`. -/
theorem claim5_custom_type (ct m : String) (hct : ¬ jsTrim ct = "")
    (ltrs inner ws1 ws2 rest : List Char)
    (hl1 : ltrs ≠ []) (hl2 : ∀ c ∈ ltrs, Char.isAlpha c = true)
    (hi : ')' ∉ inner)
    (hw1 : ∀ c ∈ ws1, isJsSpace c = true) (hw2 : ∀ c ∈ ws2, isJsSpace c = true)
    (hr : firstIsJsSpace rest = false) :
    applyCustomConventionalType
      ⟨ltrs ++ '(' :: (inner ++ ')' :: (ws1 ++ ':' :: (ws2 ++ rest)))⟩ ct =
      ct ++ ": " ++ (⟨rest⟩ : String)
    ∧ applyCustomConventionalType ⟨ltrs ++ (ws1 ++ ':' :: (ws2 ++ rest))⟩ ct =
      ct ++ ": " ++ (⟨rest⟩ : String)
    ∧ (convMatchRem m.data = none →
        applyCustomConventionalType m ct = ct ++ ": " ++ m)
    ∧ applyCustomConventionalType "feat(x): add thing" "fix" = "fix: add thing"
    ∧ "fix: ".data.isPrefixOf
        (applyCustomConventionalType "feat(x): add thing" "fix").data = true
    ∧ containsSub (applyCustomConventionalType "feat(x): add thing" "fix").data
        "feat(x):".data = false := by
  have hct0 : ¬ ct = "" := by
    intro h
    exact hct (by rw [h]; rfl)
  refine ⟨?_, ?_, ?_, by decide, by decide, by decide⟩
  · rw [applyCustomConventionalType, if_neg hct0, if_neg hct]
    rw [show (⟨ltrs ++ '(' :: (inner ++ ')' ::
        (ws1 ++ ':' :: (ws2 ++ rest)))⟩ : String).data =
      ltrs ++ '(' :: (inner ++ ')' :: (ws1 ++ ':' :: (ws2 ++ rest))) from rfl]
    rw [convMatchRem_scope ltrs inner ws1 ws2 rest hl1 hl2 hi hw1 hw2 hr]
  · rw [applyCustomConventionalType, if_neg hct0, if_neg hct]
    rw [show (⟨ltrs ++ (ws1 ++ ':' :: (ws2 ++ rest))⟩ : String).data =
      ltrs ++ (ws1 ++ ':' :: (ws2 ++ rest)) from rfl]
    rw [convMatchRem_noscope ltrs ws1 ws2 rest hl1 hl2 hw1 hw2 hr]
  · intro hnone
    rw [applyCustomConventionalType, if_neg hct0, if_neg hct, hnone]

/-- **C5 witness**: the replacement equation instantiated on the decomposition
of `"feat(x): add thing"` with custom type `"fix"`. -/
theorem claim5_witness :
    applyCustomConventionalType
      ⟨"feat".data ++ '(' :: ("x".data ++ ')' ::
        ([] ++ ':' :: ([' '] ++ "add thing".data)))⟩ "fix" =
      "fix" ++ ": " ++ (⟨"add thing".data⟩ : String) :=
  (claim5_custom_type "fix" "" (by decide) "feat".data "x".data [] [' ']
    "add thing".data (by decide) (by decide) (by decide) (by decide)
    (by decide) (by decide)).1

/-- **C6**: `summarizeDiff` lists the pre-image paths of all diff header
lines, joined by `", "` in first-seen order with duplicates preserved, or
returns `"No files changed"` when no header line matches; extraction
distributes over newlines (so order and multiplicity follow line order). -/
theorem claim6_summarize_diff :
    summarizeDiff "" = "No files changed"
    ∧ summarizeDiff ("diff --git a/foo.js b/foo.js\nindex 1..2 100644\n--- a/foo.js\n+++ b/foo.js\n@@ -1 +1 @@\ndiff --git a/bar.js b/bar.js\n--- a/bar.js")
      = "Files changed: foo.js, bar.js"
    ∧ summarizeDiff "diff --git a/foo.js b/foo.js\ndiff --git a/foo.js b/foo.js"
      = "Files changed: foo.js, foo.js"
    ∧ (∀ a b : List Char,
        extractPathsL (a ++ '\n' :: b) = extractPathsL a ++ extractPathsL b)
    ∧ (∀ d : String, extractPathsL d.data = [] →
        summarizeDiff d = "No files changed")
    ∧ (∀ d : String, ∀ f fs, extractPathsL d.data = f :: fs →
        summarizeDiff d = "Files changed: " ++
          String.intercalate ", " ((f :: fs).map (fun p => (⟨p⟩ : String)))) := by
  refine ⟨by decide, by decide, by decide, extractPathsL_append, ?_, ?_⟩
  · intro d h
    rw [summarizeDiff]
    simp [h]
  · intro d f fs h
    rw [summarizeDiff]
    simp [h]

/-- **C6 witness**: the no-header branch applied at the empty diff. -/
theorem claim6_witness : summarizeDiff "" = "No files changed" :=
  claim6_summarize_diff.2.2.2.2.1 "" (by decide)

/-- **C7**: the cleanup strips exactly one leading and one trailing run of
quote/backtick characters from the first line; the raw text
`"Fix login bug"` wrapped in double quotes, with no custom type and no
ticket id, comes back as exactly `Fix login bug`. -/
theorem claim7_quote_strip (q1 s q2 : List Char)
    (h1 : ∀ c ∈ q1, isQuoteChar c = true) (h2 : ∀ c ∈ q2, isQuoteChar c = true)
    (hh : firstIsQuote s = false) (ht : firstIsQuote s.reverse = false) :
    stripEdgeQuotes (q1 ++ s ++ q2) = s
    ∧ aiCleanMessage "\"Fix login bug\"" = "Fix login bug"
    ∧ aiCleanMessage "\"Fix login bug\"\nSecond line" = "Fix login bug"
    ∧ cleanAndFormatMessage "\"Fix login bug\"" {} = "Fix login bug" :=
  ⟨stripEdgeQuotes_wrap q1 s q2 h1 h2 hh ht, by decide, by decide, by decide⟩

/-- **C7 witness**: the strip equation at `"Fix login bug"` wrapped in double
quotes. -/
theorem claim7_witness :
    stripEdgeQuotes (['"'] ++ "Fix login bug".data ++ ['"']) =
      "Fix login bug".data :=
  (claim7_quote_strip ['"'] "Fix login bug".data ['"'] (by decide) (by decide)
    (by decide) (by decide)).1

/-- **C8**: the quality gate warns exactly when the cleaned message is empty,
contains "commit message" case-insensitively, or is shorter than 5
characters; the message is returned unchanged in every case (warning or
not). -/
theorem claim8_quality_gate (raw : String) :
    (processedResult raw).1 = aiCleanMessage raw
    ∧ ((processedResult raw).2 = true ↔
        (aiCleanMessage raw = "" ∨
         containsSub (lowerStr (aiCleanMessage raw)).data
           "commit message".data = true ∨
         (aiCleanMessage raw).length < 5))
    ∧ processedResult "xy" = ("xy", true)
    ∧ processedResult "Fix login bug" = ("Fix login bug", false)
    ∧ processedResult "Here is a commit MESSAGE" =
        ("Here is a commit MESSAGE", true) := by
  refine ⟨rfl, ?_, by decide, by decide, by decide⟩
  rw [processedResult, warnGate]
  simp only [Bool.or_eq_true, decide_eq_true_eq, Nat.lt_iff_add_one_le,
    or_assoc]

/-- **C8 witness**: the gate evaluated at the too-short message `"xy"`: the
warning fires and the message is still returned. -/
theorem claim8_witness :
    (processedResult "xy").1 = aiCleanMessage "xy" ∧
    ((processedResult "xy").2 = true ↔
      (aiCleanMessage "xy" = "" ∨
       containsSub (lowerStr (aiCleanMessage "xy")).data
         "commit message".data = true ∨
       (aiCleanMessage "xy").length < 5)) :=
  ⟨(claim8_quality_gate "xy").1, (claim8_quality_gate "xy").2.1⟩

/-- **C9**: every two-token flag consumes the immediately following token as
its value unconditionally (even when that token looks like another flag), and
a two-token flag ending the argument list stores the empty string instead of
erroring. -/
theorem claim9_flag_scan (acc : CliArgs) (v : String) (rest : List String) :
    (parseLoop ("--context" :: v :: rest) acc =
        parseLoop rest { acc with context := some v }
      ∧ parseLoop ["--context"] acc = .finished { acc with context := some "" })
    ∧ (parseLoop ("-ctx" :: v :: rest) acc =
        parseLoop rest { acc with context := some v }
      ∧ parseLoop ["-ctx"] acc = .finished { acc with context := some "" })
    ∧ (parseLoop ("--type" :: v :: rest) acc =
        parseLoop rest { acc with conventionalType := some v }
      ∧ parseLoop ["--type"] acc =
          .finished { acc with conventionalType := some "" })
    ∧ (parseLoop ("-t" :: v :: rest) acc =
        parseLoop rest { acc with conventionalType := some v }
      ∧ parseLoop ["-t"] acc =
          .finished { acc with conventionalType := some "" })
    ∧ (parseLoop ("--ticketid" :: v :: rest) acc =
        parseLoop rest { acc with ticketID := some v }
      ∧ parseLoop ["--ticketid"] acc = .finished { acc with ticketID := some "" })
    ∧ (parseLoop ("-tid" :: v :: rest) acc =
        parseLoop rest { acc with ticketID := some v }
      ∧ parseLoop ["-tid"] acc = .finished { acc with ticketID := some "" })
    ∧ (parseLoop ("--model" :: v :: rest) acc =
        parseLoop rest { acc with model := some v }
      ∧ parseLoop ["--model"] acc = .finished { acc with model := some "" })
    ∧ (parseLoop ("-m" :: v :: rest) acc =
        parseLoop rest { acc with model := some v }
      ∧ parseLoop ["-m"] acc = .finished { acc with model := some "" })
    ∧ (parseLoop ("--prompt-template" :: v :: rest) acc =
        parseLoop rest { acc with promptTemplate := some v }
      ∧ parseLoop ["--prompt-template"] acc =
          .finished { acc with promptTemplate := some "" })
    ∧ (parseLoop ("-pt" :: v :: rest) acc =
        parseLoop rest { acc with promptTemplate := some v }
      ∧ parseLoop ["-pt"] acc =
          .finished { acc with promptTemplate := some "" })
    ∧ parseArgs ["--type", "--copy", "-c"] =
        .finished { conventionalType := some "--copy", autoCopy := some true }
    ∧ parseArgs ["--ticketid"] = .finished { ticketID := some "" } :=
  ⟨⟨rfl, rfl⟩, ⟨rfl, rfl⟩, ⟨rfl, rfl⟩, ⟨rfl, rfl⟩, ⟨rfl, rfl⟩, ⟨rfl, rfl⟩,
   ⟨rfl, rfl⟩, ⟨rfl, rfl⟩, ⟨rfl, rfl⟩, ⟨rfl, rfl⟩, rfl, rfl⟩

/-- **C9 witness**: the unconditional-consumption equation instantiated at
`--ticketid` followed by the flag-like token `"--copy"`. -/
theorem claim9_witness :
    parseLoop ("--ticketid" :: "--copy" :: []) {} =
      parseLoop [] { ticketID := some "--copy" } :=
  (claim9_flag_scan {} "--copy" []).2.2.2.2.1.1

/-- **C4** (code bug): with no staged changes the later-variant `getGitData`
reports `hasStaged = false`, yet `main` never inspects the flag: the trace
still contains the provider call, and exit 0 happens only afterwards — the
early variant, by contrast, exits 0 inside `getGitData` before any provider
call, which is the behavior the claim describes. -/
theorem claim4_no_staged_bug :
    (getGitData "" "").hasStaged = false
    ∧ getGitDataEarlyVariant "" "" = .error 0
    ∧ mainEvents { context := some "", autoCopy := some true } "" "" "" "" ""
        "Write a commit message for: {gitDiff}" "Fix parsing bug" =
      [Ev.infoCheckingStaged, Ev.gitReported false, Ev.fetchRecentAndBranch,
       Ev.providerCall "llama3.2:latest"
         (fillTemplate "Write a commit message for: {gitDiff}"
           (promptValues (getGitData "" "") "" "" ""
             (summarizeDiff (getGitData "" "").gitDiff)
             (useConventionalOf { context := some "", autoCopy := some true }))),
       Ev.displayMessage "Fix parsing bug", Ev.clipboardCopy "Fix parsing bug",
       Ev.exitCode 0]
    ∧ Ev.providerCall "llama3.2:latest"
         (fillTemplate "Write a commit message for: {gitDiff}"
           (promptValues (getGitData "" "") "" "" ""
             (summarizeDiff (getGitData "" "").gitDiff)
             (useConventionalOf { context := some "", autoCopy := some true })))
        ∈ mainEvents { context := some "", autoCopy := some true } "" "" "" ""
            "" "Write a commit message for: {gitDiff}" "Fix parsing bug" := by
  refine ⟨rfl, rfl, rfl, ?_⟩
  rw [show mainEvents { context := some "", autoCopy := some true } "" "" ""
      "" "" "Write a commit message for: {gitDiff}" "Fix parsing bug" =
    [Ev.infoCheckingStaged, Ev.gitReported false, Ev.fetchRecentAndBranch,
     Ev.providerCall "llama3.2:latest"
       (fillTemplate "Write a commit message for: {gitDiff}"
         (promptValues (getGitData "" "") "" "" ""
           (summarizeDiff (getGitData "" "").gitDiff)
           (useConventionalOf { context := some "", autoCopy := some true }))),
     Ev.displayMessage "Fix parsing bug", Ev.clipboardCopy "Fix parsing bug",
     Ev.exitCode 0] from rfl]
  exact List.mem_cons_of_mem _ (List.mem_cons_of_mem _
    (List.mem_cons_of_mem _ (List.mem_cons_self _ _)))

end CommitAssist
